import Mathlib

/-!
Shallow embedding of the `mips_vm` MIPS32 virtual machine
(crate `vm`: `src/vm/src/{vm.rs, memory.rs, registers.rs, address.rs, program.rs}`).

Conventions of the embedding:
* machine words (`u32`) are `Nat` kept below `2^32`; wrapping operators
  (`wadd`, `wsub`, ...) model Rust's unchecked (release-profile) integer
  semantics, which the specification itself declares observable
  ("wrap is observable"); `u32` division by zero panics in every Rust
  profile and is modelled by `Option`/a dedicated `panicked` outcome;
* fallible Rust functions returning `Result<T, MemoryError>` become
  `Except MemoryError T`; functions that mutate `&mut self` in addition to
  returning a `Result` return a pair of the result and the updated state,
  so that partial mutation before an error is preserved exactly as in the
  source;
* Rust `panic!`/`unwrap` is modelled by `Option` (`none` = panic) or by the
  `StepResult.panicked` outcome of the interpreter step.
-/

namespace MipsVM

/-- `u32` modulus. -/
def wordMod : Nat := 4294967296

/-- Machine word (`pub type Word = u32;` in `program.rs`); values are kept below `2^32`. -/
abbrev Word := Nat

/-- A byte; values are kept below `256`. -/
abbrev Byte := Nat

/-- Wrapping 32-bit addition (Rust `a + b` on `u32`, unchecked profile). -/
def wadd (a b : Word) : Word := (a + b) % wordMod

/-- Wrapping 32-bit subtraction (Rust `a - b` on `u32`, unchecked profile). -/
def wsub (a b : Word) : Word := (a + (wordMod - b % wordMod)) % wordMod

/-- Wrapping 32-bit multiplication (Rust `a * b` on `u32`, unchecked profile). -/
def wmul (a b : Word) : Word := (a * b) % wordMod

/-- `u32` division. Rust `a / b` panics when `b = 0` in every build profile,
hence the `Option`. -/
def wdiv (a b : Word) : Option Word := if b = 0 then none else some (a / b)

/-- Signed (two's-complement) reading of a 32-bit word, as Rust `x as i32`. -/
def toInt32 (w : Word) : Int := if w < 2147483648 then (w : Int) else (w : Int) - 4294967296

/-- Truncating conversion of an integer back to a 32-bit word. -/
def ofInt32 (i : Int) : Word := (i % (4294967296 : Int)).toNat

/-- Rust `a << b` on `u32` (unchecked profile: the shift count is taken mod 32). -/
def wshl (a b : Word) : Word := (a <<< (b % 32)) % wordMod

/-- Rust `a >> b` on `u32` (logical right shift; count taken mod 32). -/
def wshr (a b : Word) : Word := a >>> (b % 32)

/-- Rust `(a as i32) >> b` (arithmetic right shift = flooring division by `2^b`). -/
def wsra (a b : Word) : Word := ofInt32 (Int.fdiv (toInt32 a) ((2 : Int) ^ (b % 32)))

/-- Bitwise and on 32-bit words. -/
def wand (a b : Word) : Word := a &&& b

/-- Bitwise or on 32-bit words. -/
def wor (a b : Word) : Word := a ||| b

/-- Bitwise xor on 32-bit words. -/
def wxor (a b : Word) : Word := a ^^^ b

/-- Rust `!(a | b)` on `u32` (bitwise nor). -/
def wnor (a b : Word) : Word := 4294967295 - (a ||| b) % wordMod

/-- Little-endian decomposition of a word into 4 bytes (`u32::to_le_bytes`). -/
def wordToLeBytes (w : Word) : List Byte :=
  [w % 256, w / 256 % 256, w / 65536 % 256, w / 16777216 % 256]

/-- Little-endian recomposition of 4 bytes into a word (`u32::from_le_bytes`).
The source copies into a zero-filled 4-byte buffer, so missing bytes read as 0. -/
def wordFromLeBytes (bs : List Byte) : Word :=
  bs.getD 0 0 + 256 * bs.getD 1 0 + 65536 * bs.getD 2 0 + 16777216 * bs.getD 3 0

/-- Little-endian decomposition of a halfword (`u16::to_le_bytes`). -/
def halfToLeBytes (w : Word) : List Byte := [w % 256, w / 256 % 256]

/-- `u16::from_le_bytes`. -/
def halfFromLeBytes (bs : List Byte) : Word := bs.getD 0 0 + 256 * bs.getD 1 0

/-- Rust `x as i8 as u32` (sign extension of the low byte). -/
def signExtend8 (b : Byte) : Word := if b % 256 < 128 then b % 256 else 4294967168 + b % 256

/-- Rust `x as i16 as u32` (sign extension of the low halfword). -/
def signExtend16 (h : Nat) : Word :=
  if h % 65536 < 32768 then h % 65536 else 4294901760 + h % 65536

/-- The 32 MIPS registers (`registers.rs`, enum `Register`). -/
inductive Register
  | Zero | At | V0 | V1 | A0 | A1 | A2 | A3
  | T0 | T1 | T2 | T3 | T4 | T5 | T6 | T7
  | S0 | S1 | S2 | S3 | S4 | S5 | S6 | S7
  | T8 | T9 | K0 | K1 | Gp | Sp | Fp | Ra
  deriving DecidableEq, Repr

/-- The register file (`registers.rs`, struct `Registers`): a map
`Register → Word` with default 0 for unwritten slots (`HashMap` + `unwrap_or(&0)`). -/
structure Registers where
  values : Register → Word

/-- `Registers::get`: returns 0 for `$zero` (the read path is intercepted),
otherwise the stored value, defaulting to 0. -/
def Registers.get (rf : Registers) (r : Register) : Word :=
  match r with
  | .Zero => 0
  | _ => rf.values r

/-- `Registers::set`: inserts unconditionally (including for `$zero`;
only `get` hides the stored value). -/
def Registers.set (rf : Registers) (r : Register) (v : Word) : Registers :=
  ⟨fun r2 => if r2 = r then v else rf.values r2⟩

/-- `Registers::default()`: the empty map, every register reads as 0. -/
def Registers.init : Registers := ⟨fun _ => 0⟩

/-- `memory.rs`, enum `MemoryError`. -/
inductive MemoryError
  | OutOfBounds | InvalidAddress | InvalidSize | InvalidValue | InvalidSection
  | InvalidLabel | InvalidInstruction | InvalidData | InvalidHeap | InvalidStack
  | SegmentFault | ProtectionFault
  deriving DecidableEq, Repr

/-- `memory.rs`, enum `ProtectionLevel`: the eight R/W/X lattice points
(the source enumerates seven variants, omitting the empty mask). -/
inductive ProtectionLevel
  | Read | Write | ReadWrite | Execute | ReadExecute | WriteExecute | ReadWriteExecute
  deriving DecidableEq, Repr

/-- `ProtectionLevel::is_readable`. -/
def ProtectionLevel.is_readable : ProtectionLevel → Bool
  | .Read | .ReadWrite | .ReadExecute | .ReadWriteExecute => true
  | _ => false

/-- `ProtectionLevel::is_writable`. -/
def ProtectionLevel.is_writable : ProtectionLevel → Bool
  | .Write | .ReadWrite | .WriteExecute | .ReadWriteExecute => true
  | _ => false

/-- `ProtectionLevel::is_executable`. -/
def ProtectionLevel.is_executable : ProtectionLevel → Bool
  | .Execute | .ReadExecute | .WriteExecute | .ReadWriteExecute => true
  | _ => false

/-- `const PAGE_SIZE: usize = 4096`. -/
def PAGE_SIZE : Nat := 4096

/-- A 4096-byte page plus its protection (`memory.rs`, struct `Page`).
`data` maps an offset `< 4096` to the byte stored there (0-filled on creation). -/
structure Page where
  data : Nat → Byte
  protection : ProtectionLevel

/-- `memory.rs`, struct `PageTable`: `HashMap<u32, Page>` keyed by page number. -/
structure PageTable where
  pages : Nat → Option Page

/-- `Address::page_number`: `addr >> 12`. -/
def pageNumberOf (address : Word) : Nat := address >>> 12

/-- `Address::page_offset`: `addr & 0xFFF`. -/
def pageOffsetOf (address : Word) : Nat := address % PAGE_SIZE

/-- A freshly allocated, zero-filled page. -/
def Page.fresh (protection : ProtectionLevel) : Page := ⟨fun _ => 0, protection⟩

/-- `PageTable::insert_page`. -/
def PageTable.insert_page (pt : PageTable) (page_number : Nat) (protection : ProtectionLevel) :
    PageTable :=
  ⟨fun n => if n = page_number then some (Page.fresh protection) else pt.pages n⟩

/-- Loop body of `PageTable::ensure_pages` over `count` consecutive pages starting at
`page`: allocate a zeroed page if absent, then `panic!` (modelled as `none`) if the
(now existing) page's protection differs from `protection`. -/
def ensurePagesGo (pt : PageTable) (page : Nat) (count : Nat) (protection : ProtectionLevel) :
    Option PageTable :=
  match count with
  | 0 => some pt
  | c + 1 =>
    let pt1 := if (pt.pages page).isSome then pt else pt.insert_page page protection
    match pt1.pages page with
    | some pg =>
      if pg.protection = protection then ensurePagesGo pt1 (page + 1) c protection else none
    | none => ensurePagesGo pt1 (page + 1) c protection

/-- `PageTable::ensure_pages(start_page, end_page, prot)`: iterates the inclusive
range `start_page..=end_page`. -/
def PageTable.ensure_pages (pt : PageTable) (start_page end_page : Nat)
    (protection : ProtectionLevel) : Option PageTable :=
  ensurePagesGo pt start_page (end_page + 1 - start_page) protection

/-- `PageTable::set_protection`: overwrite the protection of an existing page
(no-op when absent). -/
def PageTable.set_protection (pt : PageTable) (page_number : Nat)
    (protection : ProtectionLevel) : PageTable :=
  ⟨fun n => if n = page_number then (pt.pages page_number).map
      (fun pg => { pg with protection := protection })
    else pt.pages n⟩

/-- Loop body of `PageTable::set_protections` over `count` consecutive pages. -/
def setProtectionsGo (pt : PageTable) (page : Nat) (count : Nat)
    (protection : ProtectionLevel) : PageTable :=
  match count with
  | 0 => pt
  | c + 1 => setProtectionsGo (pt.set_protection page protection) (page + 1) c protection

/-- `PageTable::set_protections(start_page, end_page, prot)` over the inclusive range. -/
def PageTable.set_protections (pt : PageTable) (start_page end_page : Nat)
    (protection : ProtectionLevel) : PageTable :=
  setProtectionsGo pt start_page (end_page + 1 - start_page) protection

/-- One-page store: copy `bytes[0..write_size)` into `page` at offsets
`[offset, offset + write_size)` (the `copy_from_slice` call in `write_bytes`). -/
def Page.copyFrom (pg : Page) (offset write_size : Nat) (bytes : List Byte) : Page :=
  { pg with data := fun i =>
      if offset ≤ i ∧ i < offset + write_size then bytes.getD (i - offset) 0 else pg.data i }

/-- The `while left > 0` loop of `PageTable::write_bytes`.  Mirrors the source
faithfully, including its cross-page slip: each iteration copies
`&bytes[..write_size]` — the *prefix* of the original slice — so pages after the
first receive the first bytes again instead of the continuation.  The partially
updated table is returned alongside the error, as mutation in the source
persists past an early `return Err`.  `fuel` only bounds the iteration count so
the recursion is structural: every iteration consumes `write_size ≥ 1` bytes of
`left` (the offset is always `< 4096`), so `fuel = left` at the entry point
makes the `fuel = 0` branch coincide with the `left = 0` exit. -/
def writeBytesGo (pt : PageTable) (page_number offset : Nat)
    (bytes : List Byte) (left : Nat) (fuel : Nat) : PageTable × Except MemoryError Unit :=
  match fuel with
  | 0 => (pt, .ok ())
  | fuel' + 1 =>
    if left = 0 then (pt, .ok ())
    else
      match pt.pages page_number with
      | none => (pt, .error .SegmentFault)
      | some page =>
        if page.protection.is_writable = false then (pt, .error .ProtectionFault)
        else
          let write_size := min left (PAGE_SIZE - offset)
          let pt1 : PageTable := ⟨fun n =>
            if n = page_number then some (page.copyFrom offset write_size bytes)
            else pt.pages n⟩
          writeBytesGo pt1 (page_number + 1) 0 bytes (left - write_size) fuel'

/-- `PageTable::write_bytes(addr, bytes)`. -/
def PageTable.write_bytes (pt : PageTable) (address : Word) (bytes : List Byte) :
    PageTable × Except MemoryError Unit :=
  writeBytesGo pt (pageNumberOf address) (pageOffsetOf address) bytes bytes.length
    bytes.length

/-- The `while left > 0` loop of `PageTable::read_bytes`.  Mirrors the source
faithfully, including its slip: neither `page_number` nor `offset` is advanced
between iterations, so a read crossing a page boundary re-reads the tail of the
*first* page instead of continuing into the next one.  `fuel` bounds the
iteration count exactly as in `writeBytesGo`. -/
def readBytesGo (pt : PageTable) (page_number offset : Nat)
    (left : Nat) (fuel : Nat) : Except MemoryError (List (List Byte)) :=
  match fuel with
  | 0 => .ok []
  | fuel' + 1 =>
    if left = 0 then .ok []
    else
      match pt.pages page_number with
      | none => .error .SegmentFault
      | some page =>
        if page.protection.is_readable = false then .error .ProtectionFault
        else
          let read_size := min left (PAGE_SIZE - offset)
          let slice := (List.range read_size).map (fun i => page.data (offset + i))
          match readBytesGo pt page_number offset (left - read_size) fuel' with
          | .ok rest => .ok (slice :: rest)
          | .error e => .error e

/-- `PageTable::read_bytes(addr, size)`: returns the vector of slices
(flattened later by `Memory::read`). -/
def PageTable.read_bytes (pt : PageTable) (address : Word) (size : Nat) :
    Except MemoryError (List (List Byte)) :=
  readBytesGo pt (pageNumberOf address) (pageOffsetOf address) size size

/-- `program.rs`, enum `InstructionKind` (all variants). -/
inductive InstructionKind
  | Add | Addi | Addiu | Addu | Sub | Mult | Div | And | Andi | Or | Xor | Nor
  | Slt | Sll | Srl | Sra | Li | La | Move | Beq | Bne | Lw | Sw | Lui | Nop
  | J | Jr | Jal | Syscall | Jalr | Lb | Lbu | Ori | Sltu | Slti | Sltiu
  | Sllv | Srav | Srlv | Sb | Sh | Subu | Xori | Blez | Bgtz | Lhu | Multu | Divu | Lh
  deriving DecidableEq, Repr

/-- `program.rs`, enum `InstructionArg`.  Immediates are 16-bit (`pub type
Immediate = u16`); values are kept below `2^16`. -/
inductive InstructionArg
  | Register (r : Register)
  | Immediate (value : Nat)
  | RegisterOffset (offset : Nat) (r : Register)
  | Label (label : String)
  deriving DecidableEq, Repr

/-- `program.rs`, struct `Instruction`. -/
structure Instruction where
  kind : InstructionKind
  args : List InstructionArg
  deriving DecidableEq, Repr

/-- `Instruction::size()` = 4. -/
def Instruction.isize : Nat := 4

/-- `program.rs`, struct `StaticData`: one labelled datum of the `.data` section. -/
structure StaticData where
  label : String
  data : List Byte

/-- `program.rs`, struct `Block`: a labelled run of `.text` instructions. -/
structure Block where
  label : String
  instructions : List Instruction

/-- `memory.rs`, struct `MemorySegment`.  MMIO handlers: a read handler is a pure
`fn(Address) -> u8`; a write handler's only effect is on the outside world, so just
its presence is recorded. -/
structure MemorySegment where
  name : String
  start_address : Word
  end_address : Word
  read_handler : Option (Word → Byte)
  write_handler : Bool

/-- `memory.rs`, struct `Memory`.  The source keeps the segments in a
`HashMap<Address, MemorySegment>` plus the start-address keys `text`, `data`,
`heap`, `stack`; here each named segment is a field and the MMIO segments a
list, which preserves exactly the same information. -/
structure Memory where
  page_table : PageTable
  labels : List (String × Word)
  text : MemorySegment
  text_instructions : List Instruction
  data : Option MemorySegment
  heap : MemorySegment
  stack : MemorySegment
  mmio : List MemorySegment

/-- The segments of a memory, as the value collection of the source's
`sections` map. The source iterates a `HashMap` in unspecified order; the
layouts produced by `Memory::load` give non-MMIO segments pairwise
non-overlapping address ranges, so the fixed order chosen here only pins down
behaviour the source leaves to hash order. -/
def Memory.sections (m : Memory) : List MemorySegment :=
  m.text :: (m.data.toList ++ [m.heap, m.stack] ++ m.mmio)

/-- `Memory::address_of_label`. -/
def Memory.address_of_label (m : Memory) (label : String) : Except MemoryError Word :=
  match m.labels.find? (fun p => p.1 = label) with
  | some p => .ok p.2
  | none => .error .InvalidLabel

/-- `Memory::find_section`: the first segment whose inclusive range
`[start_address, end_address]` contains the address. -/
def Memory.find_section (m : Memory) (address : Word) : Except MemoryError MemorySegment :=
  match m.sections.find? (fun s => s.start_address ≤ address && address ≤ s.end_address) with
  | some s => .ok s
  | none => .error .InvalidSection

/-- Committing the handler-sampled bytes of `mmio_try_read_to` to the page
table (the `self.page_table.write_bytes(address, &bytes)?` line). -/
def Memory.mmioReadCommit (m : Memory) (address : Word) (bytes : List Byte) :
    Except MemoryError (Option (List Byte)) × Memory :=
  match m.page_table.write_bytes address bytes with
  | (pt1, .ok _) => (.ok (some bytes), { m with page_table := pt1 })
  | (pt1, .error e) => (.error e, { m with page_table := pt1 })

/-- `Memory::mmio_try_read_to`: when a read handler exists, sample it for each
byte of the range and write the bytes through the page table (propagating any
write error, with partial mutation kept). -/
def Memory.mmio_try_read_to (m : Memory) (read_handler : Option (Word → Byte))
    (address : Word) (size : Nat) : Except MemoryError (Option (List Byte)) × Memory :=
  match read_handler with
  | some h => m.mmioReadCommit address ((List.range size).map (fun i => h (wadd address i)))
  | none => (.ok none, m)

/-- The body of `Memory::read` after the bounds check: either the MMIO read
handler or the page table (the vector of page slices is flattened). -/
def Memory.readCore (m : Memory) (read_handler : Option (Word → Byte))
    (address : Word) (size : Nat) : Except MemoryError (List Byte) × Memory :=
  match m.mmio_try_read_to read_handler address size with
  | (.error e, m1) => (.error e, m1)
  | (.ok (some bytes), m1) => (.ok bytes, m1)
  | (.ok none, m1) =>
    match m1.page_table.read_bytes address size with
    | .ok slices => (.ok slices.flatten, m1)
    | .error e => (.error e, m1)

/-- `Memory::read(address, size)`: section lookup, bounds check against the
section's `end_address`, then `readCore`. -/
def Memory.read (m : Memory) (address : Word) (size : Nat) :
    Except MemoryError (List Byte) × Memory :=
  match m.find_section address with
  | .error e => (.error e, m)
  | .ok s =>
    if address + size > s.end_address then (.error .OutOfBounds, m)
    else m.readCore s.read_handler address size

/-- `Memory::read_byte`. -/
def Memory.read_byte (m : Memory) (address : Word) : Except MemoryError Byte × Memory :=
  match m.read address 1 with
  | (.ok bs, m1) => (.ok (bs.getD 0 0), m1)
  | (.error e, m1) => (.error e, m1)

/-- `Memory::read_halfword` (little-endian). -/
def Memory.read_halfword (m : Memory) (address : Word) : Except MemoryError Nat × Memory :=
  match m.read address 2 with
  | (.ok bs, m1) => (.ok (halfFromLeBytes bs), m1)
  | (.error e, m1) => (.error e, m1)

/-- `Memory::read_word` (little-endian). -/
def Memory.read_word (m : Memory) (address : Word) : Except MemoryError Word × Memory :=
  match m.read address 4 with
  | (.ok bs, m1) => (.ok (wordFromLeBytes bs), m1)
  | (.error e, m1) => (.error e, m1)

/-- `Memory::write(address, bytes)`: section lookup, bounds check, optional MMIO
write handler (externally visible only), then `PageTable::write_bytes`. -/
def Memory.write (m : Memory) (address : Word) (bytes : List Byte) :
    Except MemoryError Unit × Memory :=
  match m.find_section address with
  | .error e => (.error e, m)
  | .ok s =>
    if address + bytes.length > s.end_address then (.error .OutOfBounds, m)
    else
      match m.page_table.write_bytes address bytes with
      | (pt1, r) => (r, { m with page_table := pt1 })

/-- `Memory::write_byte`. -/
def Memory.write_byte (m : Memory) (address : Word) (value : Byte) :
    Except MemoryError Unit × Memory :=
  m.write address [value % 256]

/-- `Memory::write_halfword` (little-endian). -/
def Memory.write_halfword (m : Memory) (address : Word) (value : Nat) :
    Except MemoryError Unit × Memory :=
  m.write address (halfToLeBytes (value % 65536))

/-- `Memory::write_word` (little-endian). -/
def Memory.write_word (m : Memory) (address : Word) (value : Word) :
    Except MemoryError Unit × Memory :=
  m.write address (wordToLeBytes value)

/-- `Memory::execute(address)`: fetch the instruction IR at `address` from the
`.text` range, provided the page holding it is executable. -/
def Memory.fetch (m : Memory) (address : Word) : Except MemoryError Instruction :=
  if m.text.start_address ≤ address ∧ address ≤ m.text.end_address then
    let index := (address - m.text.start_address) / Instruction.isize
    match m.page_table.pages (pageNumberOf address) with
    | none => .error .SegmentFault
    | some page =>
      if page.protection.is_executable then
        match m.text_instructions.get? index with
        | some i => .ok i
        | none => .error .InvalidInstruction
      else .error .ProtectionFault
  else .error .ProtectionFault

/-- `Memory::stack_push(values)`: reject when `start_address - 1 <= heap.end`
(a *one-byte* collision margin, regardless of `values.len()`), otherwise commit
`start_address -= len` and write the bytes there through the page table. -/
def Memory.stack_push (m : Memory) (values : List Byte) :
    Except MemoryError Unit × Memory :=
  if wsub m.stack.start_address 1 ≤ m.heap.end_address then (.error .InvalidStack, m)
  else
    let stack_new_start := wsub m.stack.start_address values.length
    let m1 := { m with stack := { m.stack with start_address := stack_new_start } }
    match m1.page_table.write_bytes stack_new_start values with
    | (pt1, r) => (r, { m1 with page_table := pt1 })

/-- `Memory::stack_pop(size)`: advance `start_address` by `size` first and then
read `size` bytes at the *new* start (the addresses just above the popped
region), exactly as the source does. -/
def Memory.stack_pop (m : Memory) (size : Nat) : Except MemoryError (List Byte) × Memory :=
  let stack_new_start := wadd m.stack.start_address size
  let m1 := { m with stack := { m.stack with start_address := stack_new_start } }
  m1.read stack_new_start size

/-- `Memory::heap_allocate(size)`: fail with `InvalidHeap` when
`heap.end + size >= stack.start`, otherwise return the old `end_address` and
advance it by `size`. -/
def Memory.heap_allocate (m : Memory) (size : Nat) : Except MemoryError Word × Memory :=
  if m.stack.start_address ≤ wadd m.heap.end_address size then (.error .InvalidHeap, m)
  else
    let address := m.heap.end_address
    (.ok address,
      { m with heap := { m.heap with end_address := wadd m.heap.end_address size } })

/-- `Memory::heap_deallocate(address, size)`: overwrite with zeros, ignoring the
result (`let _ = self.write(...)`). -/
def Memory.heap_deallocate (m : Memory) (address : Word) (size : Nat) : Memory :=
  (m.write address (List.replicate size 0)).2

/-- `TEXT_START` (`0x0040_0000`). -/
def TEXT_START : Word := 4194304

/-- `TEXT_MAX` (`0x0FFF_FFFF`). -/
def TEXT_MAX : Word := 268435455

/-- `ANY_DATA_START` (`0x1001_0000`). -/
def ANY_DATA_START : Word := 268500992

/-- `ANY_DATA_END` (`0x7FFF_FFFF`). -/
def ANY_DATA_END : Word := 2147483647

/-- `MMIO_START` (`0xFFFF_0000`). -/
def MMIO_START : Word := 4294901760

/-- `MMIO_MAX` (`0xFFFF_FFFF`). -/
def MMIO_MAX : Word := 4294967295

/-- The `.data` label pass of `Memory::load`: each datum's label is bound to the
running cursor, which advances by the datum's byte length. -/
def dataLabelsGo (ds : List StaticData) (cursor : Word) : List (String × Word) :=
  match ds with
  | [] => []
  | d :: rest => (d.label, cursor) :: dataLabelsGo rest (wadd cursor d.data.length)

/-- The `.text` label pass of `Memory::load`: each non-empty block label is bound
to the running cursor, which advances by `4 ×` the block's instruction count. -/
def textLabelsGo (blocks : List Block) (cursor : Word) : List (String × Word) :=
  match blocks with
  | [] => []
  | b :: rest =>
    let tail := textLabelsGo rest (wadd cursor (Instruction.isize * b.instructions.length))
    if b.label = "" then tail else (b.label, cursor) :: tail

/-- The MMIO registration loop of `Memory::load`: each segment's range is
asserted to lie in `[MMIO_START, MMIO_MAX]` (`panic!` = `none`), its pages are
allocated R+W, and the segment is rebuilt with name "MMIO" and — as in the
source — without carrying over the supplied handlers. -/
def registerMmio (pt : PageTable) : List MemorySegment → Option (PageTable × List MemorySegment)
  | [] => some (pt, [])
  | s :: rest =>
    if MMIO_START ≤ s.start_address ∧ s.end_address ≤ MMIO_MAX then
      match pt.ensure_pages (pageNumberOf s.start_address) (pageNumberOf s.end_address)
          .ReadWrite with
      | none => none
      | some pt1 =>
        match registerMmio pt1 rest with
        | none => none
        | some (pt2, segs) =>
          some (pt2, ⟨"MMIO", s.start_address, s.end_address, none, false⟩ :: segs)
    else none

/-- The `.data` phase of `Memory::load` on the empty page table: label pass,
page allocation and byte placement; produces the label map fragment, the data
end address, the optional `.data` segment and the resulting page table. -/
def loadDataStep (dataList : List StaticData) :
    Option (List (String × Word) × Word × Option MemorySegment × PageTable) :=
  let pt0 : PageTable := ⟨fun _ => none⟩
  let data_start := ANY_DATA_START
  let data_raw := (dataList.map (·.data)).flatten
  if dataList.isEmpty then some ([], data_start, none, pt0)
  else
    let dend := wadd data_start data_raw.length
    match pt0.ensure_pages (pageNumberOf data_start) (pageNumberOf dend) .ReadWrite with
    | none => none
    | some pta =>
      match pta.write_bytes data_start data_raw with
      | (ptb, .ok _) =>
        some (dataLabelsGo dataList data_start, dend,
          some ⟨".data", data_start, dend, none, false⟩, ptb)
      | (_, .error _) => none

/-- `Memory::load(program, mmio)`.  The program is passed as its `.data` section
(list of `StaticData`) and `.text` section (list of `Block`s), exactly the parts
`load` consumes.  `raw_instructions` stands for the output of
`assemble_all(..).flat_map(to_le_bytes)` — the encoder is a separate component
and only the byte count, asserted against `text_end - text_start` in the
source, matters to the memory layout.  Every `panic!`/`assert!`/`unwrap` along
the way is modelled as `none`. -/
def Memory.load (dataList : List StaticData) (blocks : List Block)
    (raw_instructions : List Byte) (mmio : List MemorySegment) : Option Memory :=
  match loadDataStep dataList with
  | none => none
  | some (dlabels, data_end, dataSeg, pt1) =>
    -- =========== .text section ===========
    if blocks.isEmpty then none
    else
      let text_start := TEXT_START
      let tlabels := textLabelsGo blocks text_start
      let text_instructions := (blocks.map (·.instructions)).flatten
      let text_end := wadd text_start (Instruction.isize * text_instructions.length)
      match pt1.ensure_pages (pageNumberOf text_start) (pageNumberOf text_end) .Write with
      | none => none
      | some pt2 =>
        if raw_instructions.length = wsub text_end text_start then
          match pt2.write_bytes text_start raw_instructions with
          | (_, .error _) => none
          | (pt3, .ok _) =>
            let pt4 := pt3.set_protections (pageNumberOf text_start) (pageNumberOf text_end)
              .ReadExecute
            if text_end ≤ TEXT_MAX then
              -- =========== .heap and .stack sections ===========
              match pt4.ensure_pages (pageNumberOf data_end) (pageNumberOf data_end)
                  .ReadWrite with
              | none => none
              | some pt5 =>
                match pt5.ensure_pages (pageNumberOf ANY_DATA_END) (pageNumberOf ANY_DATA_END)
                    .ReadWrite with
                | none => none
                | some pt6 =>
                  -- =========== MMIO sections ===========
                  match registerMmio pt6 mmio with
                  | none => none
                  | some (pt7, msegs) =>
                    some { page_table := pt7
                           labels := dlabels ++ tlabels
                           text := ⟨".text", text_start, text_end, none, false⟩
                           text_instructions := text_instructions
                           data := dataSeg
                           heap := ⟨".heap", data_end, data_end, none, false⟩
                           stack := ⟨".stack", ANY_DATA_END, ANY_DATA_END, none, false⟩
                           mmio := msegs }
            else none
        else none

/-- The interpreter's mutable state apart from the program counter
(`vm.rs`, struct `VM`). -/
structure VMState where
  registers : Registers
  memory : Memory

/-- Outcome of one iteration of the `'execution` loop of `VM::execute`:
continue at a new pc, hit a `syscall` (dispatched through I/O, outside this
model), or `panic!` somewhere in the iteration. -/
inductive StepResult
  | next (st : VMState) (pc : Word)
  | syscallStep (st : VMState) (pc : Word)
  | panicked

/-- `VM::load_word(arg)`: immediate (zero-extended `u16`), register value,
`read_word(base + offset)` for a register offset, or `read_word` of a label's
address.  Memory reads can mutate (MMIO) and their failure `panic!`s, hence
`Option` of value and updated state. -/
def VM.load_word (st : VMState) (arg : InstructionArg) : Option (Word × VMState) :=
  match arg with
  | .Immediate value => some (value % 65536, st)
  | .Register r => some (st.registers.get r, st)
  | .RegisterOffset offset r =>
    let base := st.registers.get r
    let address := wadd base (offset % 65536)
    match st.memory.read_word address with
    | (.ok w, m1) => some (w, { st with memory := m1 })
    | (.error _, _) => none
  | .Label label =>
    match st.memory.address_of_label label with
    | .error _ => none
    | .ok address =>
      match st.memory.read_word address with
      | (.ok w, m1) => some (w, { st with memory := m1 })
      | (.error _, _) => none

/-- `VM::load_address(arg)`: pure address computation (label lookup `unwrap`s). -/
def VM.load_address (st : VMState) (arg : InstructionArg) : Option Word :=
  match arg with
  | .Immediate value => some (value % 65536)
  | .Register r => some (st.registers.get r)
  | .RegisterOffset offset r => some (wadd (st.registers.get r) (offset % 65536))
  | .Label label =>
    match st.memory.address_of_label label with
    | .ok address => some address
    | .error _ => none

/-- `VM::arithmetic(args, operation)`: requires `args[0]` to be a register
(else `panic!`), loads `dest` from `args[0]` and `src` from `args[1]`, and
stores `operation(dest, src)` back into the `args[0]` register.  Note that the
*old destination value* is the left operand and `args[2]` is never consulted.
`operation` is `Option`-valued so division by zero propagates as a panic. -/
def VM.arithmetic (st : VMState) (args : List InstructionArg)
    (operation : Word → Word → Option Word) : Option VMState :=
  match args.get? 0 with
  | some (.Register r) => do
    let (dest, st1) ← VM.load_word st (.Register r)
    let a1 ← args.get? 1
    let (src, st2) ← VM.load_word st1 a1
    let v ← operation dest src
    some { st2 with registers := st2.registers.set r v }
  | _ => none

/-- Convert the `Option`-based panic propagation into a `StepResult`. -/
def orPanic (o : Option StepResult) : StepResult := o.getD .panicked

/-- Shared shape of `Li` / `Move` (and, with `load_address`, `La`):
`args[0]` must be a register, the value of `args[1]` is stored into it. -/
def VM.setFromWord (st : VMState) (args : List InstructionArg) (pc1 : Word) : StepResult :=
  orPanic do
    match args.get? 0 with
    | some (.Register r) =>
      let a1 ← args.get? 1
      let (value, st1) ← VM.load_word st a1
      some (.next { st1 with registers := st1.registers.set r value } pc1)
    | _ => none

/-- Shared shape of the `dest/src/imm` I-type arms (`Addi`, `Andi`, `Ori`,
`Xori`, `Addiu`, `Slti`, `Sltiu`): `args[0]` a register, combine the values of
`args[1]` and `args[2]`. -/
def VM.immOp (st : VMState) (args : List InstructionArg) (pc1 : Word)
    (op : Word → Word → Word) : StepResult :=
  orPanic do
    match args.get? 0 with
    | some (.Register r) =>
      let a1 ← args.get? 1
      let (src, st1) ← VM.load_word st a1
      let a2 ← args.get? 2
      let (imm, st2) ← VM.load_word st1 a2
      some (.next { st2 with registers := st2.registers.set r (op src imm) } pc1)
    | _ => none

/-- Shared shape of `Beq`/`Bne`: load both sides and the offset, then add the
offset to the (already advanced) pc when the condition holds. -/
def VM.branchCmp (st : VMState) (args : List InstructionArg) (pc1 : Word)
    (cond : Word → Word → Bool) : StepResult :=
  orPanic do
    let a0 ← args.get? 0
    let (lhs, st1) ← VM.load_word st a0
    let a1 ← args.get? 1
    let (rhs, st2) ← VM.load_word st1 a1
    let a2 ← args.get? 2
    let (offset, st3) ← VM.load_word st2 a2
    some (.next st3 (if cond lhs rhs then wadd pc1 offset else pc1))

/-- Shared shape of `Blez`/`Bgtz`: signed comparison of `args[0]`'s value
against zero, offset in `args[1]`. -/
def VM.branchZ (st : VMState) (args : List InstructionArg) (pc1 : Word)
    (cond : Int → Bool) : StepResult :=
  orPanic do
    let a0 ← args.get? 0
    let (src, st1) ← VM.load_word st a0
    let a1 ← args.get? 1
    let (offset, st2) ← VM.load_word st1 a1
    some (.next st2 (if cond (toInt32 src) then wadd pc1 offset else pc1))

/-- Shared shape of the load instructions `Lb`/`Lbu`/`Lh`/`Lhu`: `args[0]` a
register, `load_address(args[1])`, read `n` bytes and store `conv` of them. -/
def VM.loadMem (st : VMState) (args : List InstructionArg) (pc1 : Word) (n : Nat)
    (conv : List Byte → Word) : StepResult :=
  orPanic do
    match args.get? 0 with
    | some (.Register r) =>
      let a1 ← args.get? 1
      let address ← VM.load_address st a1
      match st.memory.read address n with
      | (.ok bs, m1) =>
        some (.next { registers := st.registers.set r (conv bs), memory := m1 } pc1)
      | (.error _, _) => none
    | _ => none

/-- One iteration of the `'execution` loop of `VM::execute` on a given
instruction, after the fetch: the pc is advanced by 4 *before* dispatch, then
the instruction kind is interpreted exactly as in the source `match`. -/
def VM.execInstr (st : VMState) (pc : Word) (inst : Instruction) : StepResult :=
  let pc1 := wadd pc Instruction.isize
  match inst.kind with
  | .Li => VM.setFromWord st inst.args pc1
  | .La =>
    orPanic do
      match inst.args.get? 0 with
      | some (.Register r) =>
        let a1 ← inst.args.get? 1
        let address ← VM.load_address st a1
        some (.next { st with registers := st.registers.set r address } pc1)
      | _ => none
  | .Move => VM.setFromWord st inst.args pc1
  | .Add => orPanic ((VM.arithmetic st inst.args (fun a b => some (wadd a b))).map (.next · pc1))
  | .Sub => orPanic ((VM.arithmetic st inst.args (fun a b => some (wsub a b))).map (.next · pc1))
  | .Mult => orPanic ((VM.arithmetic st inst.args (fun a b => some (wmul a b))).map (.next · pc1))
  | .Div => orPanic ((VM.arithmetic st inst.args wdiv).map (.next · pc1))
  | .And => orPanic ((VM.arithmetic st inst.args (fun a b => some (wand a b))).map (.next · pc1))
  | .Or => orPanic ((VM.arithmetic st inst.args (fun a b => some (wor a b))).map (.next · pc1))
  | .Xor => orPanic ((VM.arithmetic st inst.args (fun a b => some (wxor a b))).map (.next · pc1))
  | .Nor => orPanic ((VM.arithmetic st inst.args (fun a b => some (wnor a b))).map (.next · pc1))
  | .Slt =>
    orPanic ((VM.arithmetic st inst.args
      (fun a b => some (if a < b then 1 else 0))).map (.next · pc1))
  | .Sll => orPanic ((VM.arithmetic st inst.args (fun a b => some (wshl a b))).map (.next · pc1))
  | .Srl => orPanic ((VM.arithmetic st inst.args (fun a b => some (wshr a b))).map (.next · pc1))
  | .Sra => orPanic ((VM.arithmetic st inst.args (fun a b => some (wshr a b))).map (.next · pc1))
  | .Jr =>
    orPanic do
      let a0 ← inst.args.get? 0
      let _address ← VM.load_address st a0
      -- the source only logs the address; pc is left at the fall-through value
      some (.next st pc1)
  | .Syscall => .syscallStep st pc1
  | .Addi => VM.immOp st inst.args pc1 wadd
  | .Andi => VM.immOp st inst.args pc1 wand
  | .Beq => VM.branchCmp st inst.args pc1 (fun a b => a == b)
  | .Bne => VM.branchCmp st inst.args pc1 (fun a b => a != b)
  | .Lw =>
    orPanic do
      match inst.args.get? 0 with
      | some (.Register r) =>
        let a1 ← inst.args.get? 1
        let (src, st1) ← VM.load_word st a1
        let a2 ← inst.args.get? 2
        let (offset, st2) ← VM.load_word st1 a2
        let address := wadd src offset
        match st2.memory.read_word address with
        | (.ok w, m1) =>
          some (.next { registers := st2.registers.set r w, memory := m1 } pc1)
        | (.error _, _) => none
      | _ => none
  | .Sw =>
    orPanic do
      let a0 ← inst.args.get? 0
      let (src, st1) ← VM.load_word st a0
      let a1 ← inst.args.get? 1
      let (dest, st2) ← VM.load_word st1 a1
      match st2.memory.write dest (wordToLeBytes src) with
      | (.ok _, m1) => some (.next { st2 with memory := m1 } pc1)
      | (.error _, _) => none
  | .Lui =>
    orPanic do
      match inst.args.get? 0 with
      | some (.Register r) =>
        let a1 ← inst.args.get? 1
        let (imm, st1) ← VM.load_word st a1
        some (.next { st1 with registers := st1.registers.set r (wshl imm 16) } pc1)
      | _ => none
  | .Nop => .next st pc1
  | .J =>
    orPanic do
      let a0 ← inst.args.get? 0
      let address ← VM.load_address st a0
      some (.next st address)
  | .Jal =>
    orPanic do
      let a0 ← inst.args.get? 0
      let address ← VM.load_address st a0
      some (.next { st with registers := st.registers.set .Ra (wadd pc1 4) } address)
  | .Addiu => VM.immOp st inst.args pc1 wadd
  | .Addu => orPanic ((VM.arithmetic st inst.args (fun a b => some (wadd a b))).map (.next · pc1))
  | .Blez => VM.branchZ st inst.args pc1 (fun i => i ≤ 0)
  | .Bgtz => VM.branchZ st inst.args pc1 (fun i => 0 < i)
  | .Jalr =>
    orPanic do
      match inst.args.get? 0 with
      | some (.Register r) =>
        let a1 ← inst.args.get? 1
        let address ← VM.load_address st a1
        some (.next { st with registers := st.registers.set r pc1 } address)
      | _ => none
  | .Lb => VM.loadMem st inst.args pc1 1 (fun bs => signExtend8 (bs.getD 0 0))
  | .Lbu => VM.loadMem st inst.args pc1 1 (fun bs => bs.getD 0 0)
  | .Lh => VM.loadMem st inst.args pc1 2 (fun bs => signExtend16 (halfFromLeBytes bs))
  | .Lhu => VM.loadMem st inst.args pc1 2 halfFromLeBytes
  | .Multu => orPanic ((VM.arithmetic st inst.args (fun a b => some (wmul a b))).map (.next · pc1))
  | .Divu => orPanic ((VM.arithmetic st inst.args wdiv).map (.next · pc1))
  | .Ori => VM.immOp st inst.args pc1 wor
  | .Sltu =>
    orPanic ((VM.arithmetic st inst.args
      (fun a b => some (if a < b then 1 else 0))).map (.next · pc1))
  | .Slti => VM.immOp st inst.args pc1 (fun a b => if toInt32 a < toInt32 b then 1 else 0)
  | .Sltiu => VM.immOp st inst.args pc1 (fun a b => if a < b then 1 else 0)
  | .Sllv => orPanic ((VM.arithmetic st inst.args (fun a b => some (wshl a b))).map (.next · pc1))
  | .Srav => orPanic ((VM.arithmetic st inst.args (fun a b => some (wsra a b))).map (.next · pc1))
  | .Srlv => orPanic ((VM.arithmetic st inst.args (fun a b => some (wshr a b))).map (.next · pc1))
  | .Sb =>
    orPanic do
      let a0 ← inst.args.get? 0
      let (value, st1) ← VM.load_word st a0
      let a1 ← inst.args.get? 1
      let address ← VM.load_address st1 a1
      match st1.memory.write_byte address (value % 256) with
      | (.ok _, m1) => some (.next { st1 with memory := m1 } pc1)
      | (.error _, _) => none
  | .Sh =>
    orPanic do
      let a0 ← inst.args.get? 0
      let (value, st1) ← VM.load_word st a0
      let a1 ← inst.args.get? 1
      let address ← VM.load_address st1 a1
      match st1.memory.write_halfword address (value % 65536) with
      | (.ok _, m1) => some (.next { st1 with memory := m1 } pc1)
      | (.error _, _) => none
  | .Subu => orPanic ((VM.arithmetic st inst.args (fun a b => some (wsub a b))).map (.next · pc1))
  | .Xori => VM.immOp st inst.args pc1 wxor

/-- Straight-line execution of a list of instructions (each step must yield
`next`); used to run the spec's concrete scenarios. -/
def VM.runStraight (st : VMState) (pc : Word) : List Instruction → Option (VMState × Word)
  | [] => some (st, pc)
  | i :: rest =>
    match VM.execInstr st pc i with
    | .next st1 pc1 => VM.runStraight st1 pc1 rest
    | _ => none

/-- The pc produced by a non-panicking step. -/
def StepResult.pcOf : StepResult → Option Word
  | .next _ pc => some pc
  | .syscallStep _ pc => some pc
  | .panicked => none

/-- The value of register `r` after a non-panicking step. -/
def StepResult.regOf (r : Register) : StepResult → Option Word
  | .next st _ => some (st.registers.get r)
  | .syscallStep st _ => some (st.registers.get r)
  | .panicked => none

/-- A trivial memory value (used as the memory of register-only machine states,
and as the `Option.getD` default below). -/
def Memory.empty : Memory :=
  { page_table := ⟨fun _ => none⟩
    labels := []
    text := ⟨".text", 0, 0, none, false⟩
    text_instructions := []
    data := none
    heap := ⟨".heap", 0, 0, none, false⟩
    stack := ⟨".stack", 0, 0, none, false⟩
    mmio := [] }

/-- The single-block one-instruction program `main: nop`, with its 4 encoded bytes. -/
def nopBlocks : List Block := [⟨"main", [⟨.Nop, []⟩]⟩]

/-- The memory obtained by loading `main: nop` with no data and no MMIO:
`.text = [0x00400000, 0x00400004]`, `.heap = [0x10010000, 0x10010000]`,
`.stack = [0x7FFFFFFF, 0x7FFFFFFF]`. -/
def M0 : Memory := (Memory.load [] nopBlocks [0, 0, 0, 0] []).getD Memory.empty

/-- The memory states reachable from `init` through the public mutating
operations of `Memory` (`write` also stands for `write_byte/halfword/word`,
and `read` for all `read_*` helpers, which are wrappers around them). -/
inductive Reachable (init : Memory) : Memory → Prop
  | base : Reachable init init
  | write (a : Word) (bs : List Byte) {m : Memory} :
      Reachable init m → Reachable init (m.write a bs).2
  | read (a : Word) (n : Nat) {m : Memory} :
      Reachable init m → Reachable init (m.read a n).2
  | stack_pushR (bs : List Byte) {m : Memory} :
      Reachable init m → Reachable init (m.stack_push bs).2
  | stack_popR (n : Nat) {m : Memory} :
      Reachable init m → Reachable init (m.stack_pop n).2
  | heap_allocateR (n : Nat) {m : Memory} :
      Reachable init m → Reachable init (m.heap_allocate n).2
  | heap_deallocateR (a : Word) (n : Nat) {m : Memory} :
      Reachable init m → Reachable init (m.heap_deallocate a n)

/-- The `li $t0, 7; li $t1, 5; sub $t2, $t0, $t1; add $a0, $t2, $t1` prefix of the
spec's Arithmetic scenario (the two trailing syscall pairs only print and exit). -/
def arithScenario : List Instruction :=
  [⟨.Li, [.Register .T0, .Immediate 7]⟩,
   ⟨.Li, [.Register .T1, .Immediate 5]⟩,
   ⟨.Sub, [.Register .T2, .Register .T0, .Register .T1]⟩,
   ⟨.Add, [.Register .A0, .Register .T2, .Register .T1]⟩]

/-- A page table with exactly pages 0 and 1 allocated read-write and zeroed. -/
def twoPageTable : PageTable :=
  ⟨fun n => if n ≤ 1 then some (Page.fresh .ReadWrite) else none⟩

/-- C1: The `Jr` arm of `VM::execute` computes `load_address(args[0])`, logs it,
and never assigns it to the program counter: for every state the step falls
through to `pc + 4` with registers and memory untouched, so `jr $ra` cannot
return control to the caller of a `jal`. -/
theorem C1_jr_never_jumps (st : VMState) (pc : Word) (r : Register) :
    VM.execInstr st pc ⟨.Jr, [.Register r]⟩ = .next st (wadd pc 4) := rfl

/-- C2 (counterexample): executing `jal 256` at pc 100 leaves `$ra = 108
= pc + 8`, not the claimed `pc + 4 = 104` (the pc is advanced to 104 before
dispatch and the `Jal` arm stores `pc + 4` on top of that). -/
theorem C2_jal_ra_counterexample :
    (VM.execInstr ⟨Registers.init, Memory.empty⟩ 100 ⟨.Jal, [.Immediate 256]⟩).regOf .Ra
      = some 108 ∧
    ¬ (VM.execInstr ⟨Registers.init, Memory.empty⟩ 100 ⟨.Jal, [.Immediate 256]⟩).regOf .Ra
      = some 104 := by
  exact ⟨rfl, by decide⟩

/-- C2 (amended): executing `jal target` sets `$ra` to the already-advanced pc
*plus another 4* — the address of the `jal` plus 8 — and then sets the pc to
the resolved target address. -/
theorem C2_jal_sets_ra_to_jal_plus_8 (st : VMState) (pc : Word) (arg : InstructionArg)
    (a : Word) (h : VM.load_address st arg = some a) :
    VM.execInstr st pc ⟨.Jal, [arg]⟩ =
      .next { st with registers := st.registers.set .Ra (wadd (wadd pc 4) 4) } a := by
  simp [VM.execInstr, Instruction.isize, h, orPanic, Option.bind]

/-- C2 (witness): the amended theorem at pc 100 with target 256. -/
theorem C2_jal_witness :
    VM.execInstr ⟨Registers.init, Memory.empty⟩ 100 ⟨.Jal, [.Immediate 256]⟩ =
      .next ⟨Registers.init.set .Ra 108, Memory.empty⟩ 256 :=
  C2_jal_sets_ra_to_jal_plus_8 ⟨Registers.init, Memory.empty⟩ 100 (.Immediate 256) 256 rfl

/-- C3: `VM::arithmetic` reads its left operand from `args[0]` — the *old value
of the destination register* — and its right operand from `args[1]`, never
consulting `args[2]`; running the spec's arithmetic scenario from all-zero
registers therefore leaves `$a0 = 4294967289` (`$t2 = 0 - 7` wrapped, then
`$a0 = 0 + $t2`), not the claimed 7. -/
theorem C3_arith_scenario_gives_wrong_result :
    (VM.runStraight ⟨Registers.init, Memory.empty⟩ TEXT_START arithScenario).map
      (fun p => p.1.registers.get .A0) = some 4294967289 ∧
    (4294967289 : Word) ≠ 7 := by
  exact ⟨rfl, by decide⟩

/-- C4: pushing four bytes onto the fresh stack succeeds, but the following
`stack_pop 4` advances `start_address` *before* reading and then reads at the
new start — here the very top of the stack segment — so it returns
`OutOfBounds` instead of the pushed bytes `[222, 173, 190, 239]`. -/
theorem C4_push_pop_round_trip_fails :
    (M0.stack_push [222, 173, 190, 239]).1 = .ok () ∧
    ((M0.stack_push [222, 173, 190, 239]).2.stack_pop 4).1 = .error .OutOfBounds ∧
    (Except.error MemoryError.OutOfBounds
      ≠ (.ok [222, 173, 190, 239] : Except MemoryError (List Byte))) := by
  exact ⟨rfl, rfl, fun hh => Except.noConfusion hh⟩

/-- C5: `stack_push` only checks a one-byte margin (`start - 1 <= heap.end`),
so after growing the heap to `0x7FFFFFFD` a 4-byte push still succeeds and
drives `stack.start` (`0x7FFFFFFB`) strictly below `heap.end` — a reachable
state violating `.heap.end ≤ .stack.start`. -/
theorem C5_stack_push_can_cross_heap :
    ((M0.heap_allocate 1878982653).2.stack_push [1, 2, 3, 4]).1 = .ok () ∧
    (((M0.heap_allocate 1878982653).2.stack_push [1, 2, 3, 4]).2).stack.start_address <
      (((M0.heap_allocate 1878982653).2.stack_push [1, 2, 3, 4]).2).heap.end_address ∧
    Reachable M0 (((M0.heap_allocate 1878982653).2.stack_push [1, 2, 3, 4]).2) := by
  refine ⟨rfl, by decide, ?_⟩
  exact Reachable.stack_pushR _ (Reachable.heap_allocateR _ Reachable.base)

/-- C6: a 4-byte store crossing the page-0/page-1 boundary (address 4094)
followed by a 4-byte load at the same address does not round-trip:
`write_bytes` copies the *prefix* of the source slice into the second page and
`read_bytes` never advances its page cursor, so `[1,2,3,4]` reads back as
`[1,2] ++ [1,2]`. -/
theorem C6_cross_page_round_trip_fails :
    (twoPageTable.write_bytes 4094 [1, 2, 3, 4]).2 = .ok () ∧
    ((twoPageTable.write_bytes 4094 [1, 2, 3, 4]).1.read_bytes 4094 4)
      = .ok [[1, 2], [1, 2]] ∧
    ([[1, 2], [1, 2]] : List (List Byte)).flatten ≠ [1, 2, 3, 4] := by
  exact ⟨rfl, rfl, by decide⟩

/-- C8: the `Sra` arm of `VM::execute` is the *logical* shift `|a, b| a >> b` on
`u32` — literally the same operation as the `Srl` arm — so `sra` and `srl` agree
on every state (first conjunct); concretely, shifting `0x80000000` right by one
yields `0x40000000` instead of the sign-replicated `0xC0000000` that the
i32-based `Srav` arm (`wsra`) would produce (remaining conjuncts). -/
theorem C8_sra_is_logical_not_arithmetic :
    (∀ (st : VMState) (pc : Word) (args : List InstructionArg),
      VM.execInstr st pc ⟨.Sra, args⟩ = VM.execInstr st pc ⟨.Srl, args⟩) ∧
    (VM.execInstr ⟨(Registers.init.set .T0 2147483648).set .T1 1, Memory.empty⟩ 100
        ⟨.Sra, [.Register .T0, .Register .T1, .Immediate 1]⟩).regOf .T0
      = some 1073741824 ∧
    wsra 2147483648 1 = 3221225472 ∧ (1073741824 : Word) ≠ 3221225472 := by
  exact ⟨fun _ _ _ => rfl, rfl, by decide, by decide⟩

/-- C10: when the value the code divides by — `load_word(args[1])` — is zero,
the `Div` and `Divu` arms panic (Rust `u32` division by zero aborts in every
build profile); the step neither writes a register nor surfaces a recoverable
`MemoryError`. -/
theorem C10_division_by_zero_panics (st st1 : VMState) (pc : Word) (r : Register)
    (a1 : InstructionArg) (rest : List InstructionArg)
    (h : VM.load_word st a1 = some (0, st1)) :
    VM.execInstr st pc ⟨.Div, .Register r :: a1 :: rest⟩ = .panicked ∧
    VM.execInstr st pc ⟨.Divu, .Register r :: a1 :: rest⟩ = .panicked := by
  have hd : VM.load_word st (.Register r) = some (st.registers.get r, st) := rfl
  constructor <;>
    simp [VM.execInstr, VM.arithmetic, hd, h, wdiv, orPanic, Option.bind]

/-- C10 (witness): `div $t0, $t1` with `$t1 = 0` panics. -/
theorem C10_division_witness :
    VM.execInstr ⟨Registers.init, Memory.empty⟩ 100
      ⟨.Div, [.Register .T0, .Register .T1]⟩ = .panicked ∧
    VM.execInstr ⟨Registers.init, Memory.empty⟩ 100
      ⟨.Divu, [.Register .T0, .Register .T1]⟩ = .panicked :=
  C10_division_by_zero_panics ⟨Registers.init, Memory.empty⟩ ⟨Registers.init, Memory.empty⟩
    100 .T0 (.Register .T1) [] rfl

/-- The protection recorded for page `n` (if the page is allocated). -/
def protAt (pt : PageTable) (n : Nat) : Option ProtectionLevel :=
  (pt.pages n).map (·.protection)

/-- The byte stored at offset `i` of page `n` (0 when the page is absent). -/
def byteAt (pt : PageTable) (n i : Nat) : Byte :=
  match pt.pages n with
  | some pg => pg.data i
  | none => 0

/-- Page `n` is absent or carries a protection without the Write bit. -/
def nonWritableAt (pt : PageTable) (n : Nat) : Prop :=
  ∀ pg, pt.pages n = some pg → pg.protection.is_writable = false

/-- `ensure_pages` never touches pages below the start of its range. -/
theorem ensurePagesGo_below (c : Nat) :
    ∀ (pt : PageTable) (p : Nat) (prot : ProtectionLevel) (pt1 : PageTable),
      ensurePagesGo pt p c prot = some pt1 →
      ∀ n, n < p → pt1.pages n = pt.pages n := by
  induction c with
  | zero =>
    intro pt p prot pt1 h n hn
    simp only [ensurePagesGo] at h
    cases h
    rfl
  | succ c ih =>
    intro pt p prot pt1 h n hn
    simp only [ensurePagesGo] at h
    set ptm := if (pt.pages p).isSome then pt else pt.insert_page p prot with hptm
    have hmid : ptm.pages n = pt.pages n := by
      rw [hptm]
      split
      · rfl
      · simp only [PageTable.insert_page]
        rw [if_neg (by omega)]
    revert h
    split
    · split
      · intro h
        rw [ih _ _ _ _ h n (by omega), hmid]
      · intro h
        exact absurd h (by simp)
    · intro h
      rw [ih _ _ _ _ h n (by omega), hmid]

/-- After a successful `ensure_pages`, every page of the range exists and
carries the requested protection. -/
theorem ensurePagesGo_in (c : Nat) :
    ∀ (pt : PageTable) (p : Nat) (prot : ProtectionLevel) (pt1 : PageTable),
      ensurePagesGo pt p c prot = some pt1 →
      ∀ n, p ≤ n → n < p + c →
        ∃ pg, pt1.pages n = some pg ∧ pg.protection = prot := by
  induction c with
  | zero =>
    intro pt p prot pt1 h n hn1 hn2
    omega
  | succ c ih =>
    intro pt p prot pt1 h n hn1 hn2
    simp only [ensurePagesGo] at h
    set ptm := if (pt.pages p).isSome then pt else pt.insert_page p prot with hptm
    revert h
    split
    case h_1 pg hpg =>
      split
      case isTrue hprot =>
        intro h
        rcases Nat.eq_or_lt_of_le hn1 with heq | hlt
        · subst heq
          refine ⟨pg, ?_, hprot⟩
          rw [ensurePagesGo_below c _ _ _ _ h p (by omega)]
          exact hpg
        · exact ih _ _ _ _ h n (by omega) (by omega)
      case isFalse =>
        intro h
        exact absurd h (by simp)
    case h_2 hpg =>
      -- impossible: after the conditional insert the page at `p` exists
      intro h
      exfalso
      rw [hptm] at hpg
      revert hpg
      split
      case isTrue hs =>
        intro hpg
        rw [hpg] at hs
        simp at hs
      case isFalse =>
        intro hpg
        simp [PageTable.insert_page] at hpg

/-- `set_protections` never touches pages below the start of its range. -/
theorem setProtectionsGo_below (c : Nat) :
    ∀ (pt : PageTable) (p : Nat) (prot : ProtectionLevel) (n : Nat), n < p →
      (setProtectionsGo pt p c prot).pages n = pt.pages n := by
  induction c with
  | zero => intro pt p prot n hn; rfl
  | succ c ih =>
    intro pt p prot n hn
    simp only [setProtectionsGo]
    rw [ih _ _ _ n (by omega)]
    simp only [PageTable.set_protection]
    rw [if_neg (by omega)]

/-- Inside its range, `set_protections` overwrites the protection of every
existing page and keeps its data. -/
theorem setProtectionsGo_in (c : Nat) :
    ∀ (pt : PageTable) (p : Nat) (prot : ProtectionLevel) (n : Nat),
      p ≤ n → n < p + c →
      (setProtectionsGo pt p c prot).pages n =
        (pt.pages n).map (fun pg => { pg with protection := prot }) := by
  induction c with
  | zero => intro pt p prot n hn1 hn2; omega
  | succ c ih =>
    intro pt p prot n hn1 hn2
    simp only [setProtectionsGo]
    rcases Nat.eq_or_lt_of_le hn1 with heq | hlt
    · subst heq
      rw [setProtectionsGo_below c _ _ _ p (by omega)]
      simp [PageTable.set_protection]
    · rw [ih _ _ _ n (by omega) (by omega)]
      simp only [PageTable.set_protection]
      rw [if_neg (by omega)]

/-- The write loop never changes any page's presence or protection. -/
theorem writeBytesGo_protAt (fuel : Nat) :
    ∀ (pt : PageTable) (p off : Nat) (bs : List Byte) (left n : Nat),
      protAt (writeBytesGo pt p off bs left fuel).1 n = protAt pt n := by
  induction fuel with
  | zero => intro pt p off bs left n; rfl
  | succ fuel ih =>
    intro pt p off bs left n
    simp only [writeBytesGo]
    split
    · rfl
    · split
      · rfl
      case h_2 pg hpg =>
        split
        · rfl
        · rw [ih]
          simp only [protAt]
          by_cases hn : n = p
          · subst hn
            simp [Page.copyFrom, hpg]
          · simp [hn]

/-- The write loop never changes the bytes of a page it is not allowed to
write (absent pages or pages without the Write bit). -/
theorem writeBytesGo_ro_byteAt (fuel : Nat) :
    ∀ (pt : PageTable) (p off : Nat) (bs : List Byte) (left n i : Nat),
      nonWritableAt pt n →
      byteAt (writeBytesGo pt p off bs left fuel).1 n i = byteAt pt n i := by
  induction fuel with
  | zero => intro pt p off bs left n i _; rfl
  | succ fuel ih =>
    intro pt p off bs left n i hro
    simp only [writeBytesGo]
    split
    · rfl
    · split
      · rfl
      case h_2 pg hpg =>
        split
        · rfl
        case isFalse hw =>
          by_cases hn : n = p
          · subst hn
            exact absurd (hro pg hpg) (by simpa using hw)
          · rw [ih]
            · simp only [byteAt]
              rw [if_neg hn]
            · intro pg1 hpg1
              apply hro
              simpa [if_neg hn] using hpg1

/-- When the first page of the range is present but not writable, the write
loop fails immediately with `ProtectionFault` and leaves the table untouched. -/
theorem writeBytesGo_blocked (pt : PageTable) (p off : Nat) (bs : List Byte)
    (left fuel : Nat) (hl : left ≠ 0) (hf : fuel ≠ 0) (pg : Page)
    (hpg : pt.pages p = some pg) (hw : pg.protection.is_writable = false) :
    writeBytesGo pt p off bs left fuel = (pt, .error .ProtectionFault) := by
  cases fuel with
  | zero => exact absurd rfl hf
  | succ fuel =>
    simp only [writeBytesGo]
    rw [if_neg hl, hpg]
    simp [hw]

/-- `registerMmio` never touches pages below the MMIO page range
(page number `0xFFFF0000 >> 12 = 1048560`). -/
theorem registerMmio_below (l : List MemorySegment) :
    ∀ (pt pt1 : PageTable) (segs : List MemorySegment),
      registerMmio pt l = some (pt1, segs) →
      ∀ n, n < 1048560 → pt1.pages n = pt.pages n := by
  induction l with
  | nil =>
    intro pt pt1 segs h n hn
    simp only [registerMmio] at h
    cases h
    rfl
  | cons s rest ih =>
    intro pt pt1 segs h n hn
    simp only [registerMmio] at h
    revert h
    split
    case isTrue hrange =>
      split
      · intro h
        exact absurd h (by simp)
      case h_2 pta hpta =>
        split
        · intro h
          exact absurd h (by simp)
        case h_2 q hq =>
          intro h
          cases h
          have h1 : pageNumberOf s.start_address ≥ 1048560 := by
            have h2 : MMIO_START ≤ s.start_address := hrange.1
            have h3 : MMIO_START >>> 12 = 1048560 := by decide
            calc 1048560 = MMIO_START >>> 12 := h3.symm
              _ ≤ s.start_address >>> 12 := by
                  simp only [Nat.shiftRight_eq_div_pow]
                  exact Nat.div_le_div_right h2
              _ = pageNumberOf s.start_address := rfl
          rw [ih _ _ _ hq n hn]
          exact ensurePagesGo_below _ _ _ _ _ hpta n (by omega)
    · intro h
      exact absurd h (by simp)

/-- `PageTable.write_bytes` also preserves presence and protection of all pages. -/
theorem write_bytes_protAt (pt : PageTable) (a : Word) (bs : List Byte) (n : Nat) :
    protAt (pt.write_bytes a bs).1 n = protAt pt n :=
  writeBytesGo_protAt _ _ _ _ _ _ _

/-- `PageTable.write_bytes` preserves the bytes of non-writable pages. -/
theorem write_bytes_ro_byteAt (pt : PageTable) (a : Word) (bs : List Byte) (n i : Nat)
    (h : nonWritableAt pt n) : byteAt (pt.write_bytes a bs).1 n i = byteAt pt n i :=
  writeBytesGo_ro_byteAt _ _ _ _ _ _ _ _ h

/-- A (page-table, text-segment) abstraction of a memory mutation: used to
state that every public operation keeps the `.text` segment descriptor, keeps
every page's presence and protection, and keeps the bytes of non-writable
pages. -/
def tameStep (m m1 : Memory) : Prop :=
  m1.text = m.text ∧
  (∀ n, protAt m1.page_table n = protAt m.page_table n) ∧
  (∀ n i, nonWritableAt m.page_table n → byteAt m1.page_table n i = byteAt m.page_table n i)

theorem tameStep_refl (m : Memory) : tameStep m m :=
  ⟨rfl, fun _ => rfl, fun _ _ _ => rfl⟩

/-- Non-writability only depends on the protection, so it transfers across any
mutation that preserves `protAt`. -/
theorem nonWritableAt_of_protAt_eq {pt pt1 : PageTable} {n : Nat}
    (h : protAt pt1 n = protAt pt n) (hro : nonWritableAt pt n) : nonWritableAt pt1 n := by
  intro pg hpg
  have h2 : protAt pt1 n = some pg.protection := by simp [protAt, hpg]
  rw [h] at h2
  cases hmp : pt.pages n with
  | none => simp [protAt, hmp] at h2
  | some pg1 =>
    have h3 : pg1.protection = pg.protection := by simpa [protAt, hmp] using h2
    rw [← h3]
    exact hro pg1 hmp

theorem tameStep_trans {m m1 m2 : Memory} (h1 : tameStep m m1) (h2 : tameStep m1 m2) :
    tameStep m m2 := by
  refine ⟨h2.1.trans h1.1, fun n => (h2.2.1 n).trans (h1.2.1 n), fun n i hro => ?_⟩
  have hro1 : nonWritableAt m1.page_table n :=
    nonWritableAt_of_protAt_eq (h1.2.1 n) hro
  exact (h2.2.2 n i hro1).trans (h1.2.2 n i hro)

theorem tameStep_of_write_bytes (m : Memory) (a : Word) (bs : List Byte) :
    tameStep m { m with page_table := (m.page_table.write_bytes a bs).1 } :=
  ⟨rfl, fun n => write_bytes_protAt _ _ _ n,
    fun n i h => write_bytes_ro_byteAt _ _ _ n i h⟩

/-- `Memory::write` is a tame mutation. -/
theorem write_tame (m : Memory) (a : Word) (bs : List Byte) :
    tameStep m (m.write a bs).2 := by
  unfold Memory.write
  split
  · exact tameStep_refl m
  · split
    · exact tameStep_refl m
    · exact tameStep_of_write_bytes m a bs

/-- `Memory::mmioReadCommit` is a tame mutation. -/
theorem mmioReadCommit_tame (m : Memory) (a : Word) (bs : List Byte) :
    tameStep m (m.mmioReadCommit a bs).2 := by
  unfold Memory.mmioReadCommit
  have h1 := tameStep_of_write_bytes m a bs
  split
  case h_1 pt1 heq => rw [heq] at h1; exact h1
  case h_2 e pt1 heq => rw [heq] at h1; exact h1

/-- `Memory::mmio_try_read_to` is a tame mutation. -/
theorem mmio_try_read_to_tame (m : Memory) (h : Option (Word → Byte)) (a : Word) (k : Nat) :
    tameStep m (m.mmio_try_read_to h a k).2 := by
  unfold Memory.mmio_try_read_to
  split
  case h_1 hdl => exact mmioReadCommit_tame m a _
  case h_2 => exact tameStep_refl m

/-- `Memory::readCore` is a tame mutation. -/
theorem readCore_tame (m : Memory) (h : Option (Word → Byte)) (a : Word) (k : Nat) :
    tameStep m (m.readCore h a k).2 := by
  unfold Memory.readCore
  have h1 := mmio_try_read_to_tame m h a k
  split
  case h_1 e m1 heq => rw [heq] at h1; exact h1
  case h_2 bytes m1 heq => rw [heq] at h1; exact h1
  case h_3 m1 heq =>
    rw [heq] at h1
    split
    · exact h1
    · exact h1

/-- `Memory::read` is a tame mutation (it can write through an MMIO handler). -/
theorem read_tame (m : Memory) (a : Word) (k : Nat) : tameStep m (m.read a k).2 := by
  unfold Memory.read
  split
  · exact tameStep_refl m
  · split
    · exact tameStep_refl m
    · exact readCore_tame m _ a k

/-- `Memory::stack_push` is a tame mutation. -/
theorem stack_push_tame (m : Memory) (bs : List Byte) : tameStep m (m.stack_push bs).2 := by
  unfold Memory.stack_push
  split
  · exact tameStep_refl m
  · exact ⟨rfl, fun n => write_bytes_protAt _ _ _ n,
      fun n i h => write_bytes_ro_byteAt _ _ _ n i h⟩

/-- `Memory::stack_pop` is a tame mutation. -/
theorem stack_pop_tame (m : Memory) (k : Nat) : tameStep m (m.stack_pop k).2 :=
  tameStep_trans ⟨rfl, fun _ => rfl, fun _ _ _ => rfl⟩ (read_tame _ _ _)

/-- `Memory::heap_allocate` is a tame mutation. -/
theorem heap_allocate_tame (m : Memory) (k : Nat) : tameStep m (m.heap_allocate k).2 := by
  unfold Memory.heap_allocate
  split
  · exact tameStep_refl m
  · exact ⟨rfl, fun _ => rfl, fun _ _ _ => rfl⟩

/-- `Memory::heap_deallocate` is a tame mutation. -/
theorem heap_deallocate_tame (m : Memory) (a : Word) (k : Nat) :
    tameStep m (m.heap_deallocate a k) :=
  write_tame m a (List.replicate k 0)

/-- Every reachable state is a tame mutation of the initial one. -/
theorem reachable_tame {m0 m : Memory} (h : Reachable m0 m) : tameStep m0 m := by
  induction h with
  | base => exact tameStep_refl m0
  | write a bs _ ih => exact tameStep_trans ih (write_tame _ a bs)
  | read a n _ ih => exact tameStep_trans ih (read_tame _ a n)
  | stack_pushR bs _ ih => exact tameStep_trans ih (stack_push_tame _ bs)
  | stack_popR n _ ih => exact tameStep_trans ih (stack_pop_tame _ n)
  | heap_allocateR n _ ih => exact tameStep_trans ih (heap_allocate_tame _ n)
  | heap_deallocateR a n _ ih => exact tameStep_trans ih (heap_deallocate_tame _ a n)

theorem pageNumberOf_mono {a b : Word} (h : a ≤ b) : pageNumberOf a ≤ pageNumberOf b := by
  simp only [pageNumberOf, Nat.shiftRight_eq_div_pow]
  exact Nat.div_le_div_right h

theorem protAt_eq_of_pages {pt1 pt2 : PageTable} {n : Nat}
    (h : pt1.pages n = pt2.pages n) : protAt pt1 n = protAt pt2 n := by
  simp [protAt, h]

theorem ensure_pages_in {pt : PageTable} {ps pe : Nat} {prot : ProtectionLevel}
    {pt1 : PageTable} (h : pt.ensure_pages ps pe prot = some pt1) :
    ∀ n, ps ≤ n → n ≤ pe → ∃ pg, pt1.pages n = some pg ∧ pg.protection = prot := by
  intro n h1 h2
  exact ensurePagesGo_in _ _ _ _ _ h n h1 (by omega)

theorem ensure_pages_below {pt : PageTable} {ps pe : Nat} {prot : ProtectionLevel}
    {pt1 : PageTable} (h : pt.ensure_pages ps pe prot = some pt1) :
    ∀ n, n < ps → pt1.pages n = pt.pages n :=
  fun n hn => ensurePagesGo_below _ _ _ _ _ h n hn

theorem set_protections_in (pt : PageTable) (ps pe : Nat) (prot : ProtectionLevel) :
    ∀ n, ps ≤ n → n ≤ pe →
      (pt.set_protections ps pe prot).pages n =
        (pt.pages n).map (fun pg => { pg with protection := prot }) := by
  intro n h1 h2
  exact setProtectionsGo_in _ _ _ _ _ h1 (by omega)

/-- The `.data` phase places the data end at or above `ANY_DATA_START`
(given a data section of sane total size). -/
theorem loadDataStep_data_end {dataList : List StaticData}
    {dl : List (String × Word)} {data_end : Word} {dseg : Option MemorySegment}
    {pt1 : PageTable} (h : loadDataStep dataList = some (dl, data_end, dseg, pt1))
    (hdata : ((dataList.map (·.data)).flatten).length < 4026466304) :
    ANY_DATA_START ≤ data_end := by
  unfold loadDataStep at h
  dsimp only [] at h
  split at h
  · cases h
    exact Nat.le_refl _
  · split at h
    · exact absurd h (by simp)
    · split at h
      case h_1 ptb v heq =>
        cases h
        have hsum : ANY_DATA_START + ((dataList.map (·.data)).flatten).length < wordMod :=
          Nat.lt_of_lt_of_le (Nat.add_lt_add_left hdata _) (by decide)
        simp only [wadd]
        rw [Nat.mod_eq_of_lt hsum]
        exact Nat.le_add_right _ _
      case h_2 =>
        exact absurd h (by simp)

/-- After a successful `Memory::load`, the `.text` segment starts at
`TEXT_START`, ends at or below `TEXT_MAX`, and every page of its range is
allocated with protection Read+Execute. -/
theorem load_text_pages_RX
    (dataList : List StaticData) (blocks : List Block) (raw : List Byte)
    (mmio : List MemorySegment) (m0 : Memory)
    (hload : Memory.load dataList blocks raw mmio = some m0)
    (hdata : ((dataList.map (·.data)).flatten).length < 4026466304) :
    m0.text.start_address = TEXT_START ∧
    m0.text.end_address ≤ TEXT_MAX ∧
    ∀ n, pageNumberOf m0.text.start_address ≤ n → n ≤ pageNumberOf m0.text.end_address →
      protAt m0.page_table n = some .ReadExecute := by
  unfold Memory.load at hload
  split at hload
  · exact absurd hload (by simp)
  case h_2 dlabels data_end dataSeg pt1 hdataStep =>
    split at hload
    · exact absurd hload (by simp)
    · dsimp only [] at hload
      split at hload
      · exact absurd hload (by simp)
      case h_2 pt2 hens2 =>
        split at hload
        · split at hload
          case h_1 px e heq3 =>
            exact absurd hload (by simp)
          case h_2 pt3 v hwb3 =>
            split at hload
            case isFalse => exact absurd hload (by simp)
            case isTrue htmax =>
              split at hload
              case h_1 => exact absurd hload (by simp)
              case h_2 pt5 hens5 =>
                split at hload
                case h_1 => exact absurd hload (by simp)
                case h_2 pt6 hens6 =>
                  split at hload
                  case h_1 => exact absurd hload (by simp)
                  case h_2 pt7 msegs hmmio =>
                    cases hload
                    refine ⟨rfl, htmax, ?_⟩
                    intro n hn1 hn2
                    dsimp only [] at hn1 hn2 ⊢
                    have hTEb : n ≤ 65535 := by
                      have h2 : pageNumberOf TEXT_MAX = 65535 := by decide
                      have h3 := pageNumberOf_mono htmax
                      omega
                    obtain ⟨pg, hpg, hpgW⟩ := ensure_pages_in hens2 n hn1 hn2
                    have h4 := write_bytes_protAt pt2 TEXT_START raw n
                    rw [hwb3] at h4
                    have hprot3 : protAt pt3 n = some ProtectionLevel.Write := by
                      rw [show protAt (pt3, Except.ok v).1 n = protAt pt3 n from rfl] at h4
                      rw [h4]
                      simp [protAt, hpg, hpgW]
                    obtain ⟨pg3, hpg3⟩ : ∃ pg3, pt3.pages n = some pg3 := by
                      cases hp : pt3.pages n with
                      | none => rw [protAt, hp] at hprot3; simp at hprot3
                      | some pg3 => exact ⟨pg3, rfl⟩
                    have h5 := set_protections_in pt3 _ _ ProtectionLevel.ReadExecute n hn1 hn2
                    have hdend : ANY_DATA_START ≤ data_end :=
                      loadDataStep_data_end hdataStep hdata
                    have hdpage : 65552 ≤ pageNumberOf data_end := by
                      have h6 : pageNumberOf ANY_DATA_START = 65552 := by decide
                      have h7 := pageNumberOf_mono hdend
                      omega
                    have h8 : pageNumberOf ANY_DATA_END = 524287 := by decide
                    have e5 := ensure_pages_below hens5 n (by omega)
                    have e6 := ensure_pages_below hens6 n (by omega)
                    have e7 := registerMmio_below mmio pt6 pt7 msegs hmmio n (by omega)
                    rw [protAt_eq_of_pages e7, protAt_eq_of_pages e6, protAt_eq_of_pages e5,
                      protAt, h5, hpg3]
                    simp
        · exact absurd hload (by simp)

theorem protAt_some {pt : PageTable} {n : Nat} {pl : ProtectionLevel}
    (h : protAt pt n = some pl) : ∃ pg, pt.pages n = some pg ∧ pg.protection = pl := by
  cases hp : pt.pages n with
  | none => simp [protAt, hp] at h
  | some pg => exact ⟨pg, rfl, by simpa [protAt, hp] using h⟩

theorem nonWritableAt_of_RX {pt : PageTable} {n : Nat}
    (h : protAt pt n = some .ReadExecute) : nonWritableAt pt n := by
  intro pg hpg
  have h2 : pg.protection = ProtectionLevel.ReadExecute := by
    simpa [protAt, hpg] using h
  rw [h2]
  rfl

/-- C9 (amended): after a successful `Memory::load` (of a program with a sane
data-section size), every page of the `.text` range carries Read+Execute — and
keeps it, with its bytes intact, in every reachable memory state; a store
whose span lies inside the `.text` section fails with `ProtectionFault`, while
one that overruns the section's end fails with `OutOfBounds`; either way the
memory is left unchanged, so the loaded program bytes never change during
execution. -/
theorem C9_text_pages_protected
    (dataList : List StaticData) (blocks : List Block) (raw : List Byte)
    (mmio : List MemorySegment) (m0 m : Memory)
    (hload : Memory.load dataList blocks raw mmio = some m0)
    (hdata : ((dataList.map (·.data)).flatten).length < 4026466304)
    (hreach : Reachable m0 m) :
    m.text = m0.text ∧
    (∀ n, pageNumberOf m0.text.start_address ≤ n → n ≤ pageNumberOf m0.text.end_address →
      protAt m.page_table n = some ProtectionLevel.ReadExecute ∧
      ∀ i, byteAt m.page_table n i = byteAt m0.page_table n i) ∧
    (∀ a bs, m0.text.start_address ≤ a → a + bs.length ≤ m0.text.end_address → bs ≠ [] →
      (m.write a bs).1 = .error .ProtectionFault ∧ (m.write a bs).2 = m) ∧
    (∀ a bs, m0.text.start_address ≤ a → a ≤ m0.text.end_address →
      a + bs.length > m0.text.end_address →
      (m.write a bs).1 = .error .OutOfBounds ∧ (m.write a bs).2 = m) := by
  obtain ⟨hstart, hmax, hRX⟩ := load_text_pages_RX _ _ _ _ _ hload hdata
  have htame := reachable_tame hreach
  have htext : m.text = m0.text := htame.1
  have hRXm : ∀ n, pageNumberOf m0.text.start_address ≤ n →
      n ≤ pageNumberOf m0.text.end_address →
      protAt m.page_table n = some ProtectionLevel.ReadExecute :=
    fun n h1 h2 => (htame.2.1 n).trans (hRX n h1 h2)
  have hfind : ∀ a, m0.text.start_address ≤ a → a ≤ m0.text.end_address →
      m.find_section a = .ok m.text := by
    intro a h1 h2
    unfold Memory.find_section Memory.sections
    rw [List.find?_cons_of_pos]
    simp only [htext]
    exact by simpa using And.intro h1 h2
  refine ⟨htext, ?_, ?_, ?_⟩
  · intro n h1 h2
    exact ⟨hRXm n h1 h2, fun i => htame.2.2 n i (nonWritableAt_of_RX (hRX n h1 h2))⟩
  · intro a bs ha1 ha2 hne
    have hlen : bs.length ≠ 0 := fun hz => hne (List.length_eq_zero.mp hz)
    have haend : a ≤ m0.text.end_address := Nat.le_trans (Nat.le_add_right a bs.length) ha2
    have hpagea1 : pageNumberOf m0.text.start_address ≤ pageNumberOf a := pageNumberOf_mono ha1
    have hpagea2 : pageNumberOf a ≤ pageNumberOf m0.text.end_address := pageNumberOf_mono haend
    obtain ⟨pg, hpg, hpgRX⟩ := protAt_some (hRXm (pageNumberOf a) hpagea1 hpagea2)
    have hblocked := writeBytesGo_blocked m.page_table (pageNumberOf a) (pageOffsetOf a)
      bs bs.length bs.length hlen hlen pg hpg (by rw [hpgRX]; rfl)
    unfold Memory.write
    rw [hfind a ha1 haend]
    dsimp only []
    rw [if_neg (show ¬ a + bs.length > m.text.end_address by
      rw [htext]; exact Nat.not_lt.mpr ha2)]
    unfold PageTable.write_bytes
    rw [hblocked]
    exact ⟨rfl, rfl⟩
  · intro a bs ha1 ha2 hover
    unfold Memory.write
    rw [hfind a ha1 ha2]
    dsimp only []
    rw [if_pos (show a + bs.length > m.text.end_address by rw [htext]; exact hover)]
    exact ⟨rfl, rfl⟩

/-- C9 (counterexample): in the freshly loaded `main: nop` memory the `.text`
section is `[0x00400000, 0x00400004]`; the word store at `0x00400001` — an
address inside `.text` — fails with `OutOfBounds` (its 4-byte span overruns the
section end), not with the claimed `ProtectionFault`. -/
theorem C9_store_error_kind_counterexample :
    M0.text.start_address ≤ 4194305 ∧ 4194305 ≤ M0.text.end_address ∧
    (M0.write 4194305 (wordToLeBytes 9)).1 = .error .OutOfBounds ∧
    MemoryError.OutOfBounds ≠ MemoryError.ProtectionFault := by
  exact ⟨by decide, by decide, rfl, by decide⟩

/-- C9 (witness): the amended theorem applied to the loaded `main: nop`
program at its initial (trivially reachable) state. -/
theorem C9_text_pages_protected_witness :
    M0.text = M0.text ∧
    (∀ n, pageNumberOf M0.text.start_address ≤ n → n ≤ pageNumberOf M0.text.end_address →
      protAt M0.page_table n = some ProtectionLevel.ReadExecute ∧
      ∀ i, byteAt M0.page_table n i = byteAt M0.page_table n i) ∧
    (∀ a bs, M0.text.start_address ≤ a → a + bs.length ≤ M0.text.end_address → bs ≠ [] →
      (M0.write a bs).1 = .error .ProtectionFault ∧ (M0.write a bs).2 = M0) ∧
    (∀ a bs, M0.text.start_address ≤ a → a ≤ M0.text.end_address →
      a + bs.length > M0.text.end_address →
      (M0.write a bs).1 = .error .OutOfBounds ∧ (M0.write a bs).2 = M0) :=
  C9_text_pages_protected [] nopBlocks [0, 0, 0, 0] [] M0 M0 rfl (by decide) Reachable.base

/-- C7: In every register-file state — in particular after any sequence of
`Registers.set` calls, including ones that name `$zero` — `Registers.get $zero`
returns 0: the getter pattern-matches `$zero` before consulting the map. -/
theorem C7_zero_register_always_zero (rf : Registers) (ops : List (Register × Word)) :
    (ops.foldl (fun acc p => acc.set p.1 p.2) rf).get Register.Zero = 0 := rfl

end MipsVM
